import Mathlib

/-!
# Verification of the ctable-rs column/table text formatter

A shallow embedding of `src/lib.rs` of the `ctable-rs` repository.
Rust strings are modelled as `List Char`, so that `chars().count()` is
`List.length` (Unicode scalar counting, as in the source).  Fallible Rust
functions returning `Result<_, String>` become `Except (List Char) _`.
`Table::add_row`, which mutates `&mut self` and returns a `Result`, becomes a
function returning the pair of the result and the (possibly updated) table.
-/

set_option autoImplicit false

/-- `MAX_TRUNCATE_WIDTH` from src/lib.rs line 1. -/
def MAX_TRUNCATE_WIDTH : Nat := 5000

/-- `MAX_TABLE_ROWS` from src/lib.rs line 2. -/
def MAX_TABLE_ROWS : Nat := 5000000

/-- `MAX_CELL_LINES` from src/lib.rs line 3. -/
def MAX_CELL_LINES : Nat := 5000

/-- The `Justification` enum. -/
inductive Justification
  | Left
  | Right
deriving DecidableEq, Repr

/-- The `Column` struct: name, effective truncation width, justification and
running maximum observed content width. -/
structure Column where
  name : List Char
  truncate_at : Nat
  justification : Justification
  max_length : Nat
deriving DecidableEq, Repr

/-- Rust's `str::split('\n')`: always yields at least one piece; a trailing
newline yields a trailing empty piece. -/
def splitNl : List Char → List (List Char)
  | [] => [[]]
  | c :: cs =>
    if c = '\n' then [] :: splitNl cs
    else
      match splitNl cs with
      | [] => [[c]]
      | l :: ls => (c :: l) :: ls

/-- Error text of `Column::new` for an empty name (src/lib.rs line 32). -/
def columnNewEmptyMsg : List Char :=
  ("Column::new: column name cannot be empty").toList

/-- Error text of `Column::new` for an oversized truncation width
(src/lib.rs lines 35-36). -/
def columnNewWidthMsg (truncate_at : Nat) : List Char :=
  ("Column::new: truncation width " ++ toString truncate_at ++
    " exceeds maximum allowed (" ++ toString MAX_TRUNCATE_WIDTH ++ ")").toList

/-- Error text of `Column::format_cell` for too many lines
(src/lib.rs lines 80-81). -/
def formatCellLinesMsg (n : Nat) : List Char :=
  ("Column::format_cell: number of lines (" ++ toString n ++
    ") exceeds maximum allowed (" ++ toString MAX_CELL_LINES ++ ")").toList

/-- `Column::new` (src/lib.rs lines 29-52). -/
def Column.new (name : List Char) (truncate_at : Nat)
    (justification : Justification) : Except (List Char) Column :=
  if name.isEmpty then
    .error columnNewEmptyMsg
  else if MAX_TRUNCATE_WIDTH < truncate_at then
    .error (columnNewWidthMsg truncate_at)
  else
    let name_len := name.length
    let effective_truncate :=
      if 0 < truncate_at then max (max truncate_at 3) name_len else truncate_at
    .ok { name := name, truncate_at := effective_truncate,
          justification := justification, max_length := name_len }

/-- `Column::set_justification` (src/lib.rs lines 55-57). -/
def Column.set_justification (col : Column) (j : Justification) : Column :=
  { col with justification := j }

/-- `Column::update_max_length` (src/lib.rs lines 61-68): raise `max_length`
to the character count of each line of `value` that exceeds it. -/
def Column.update_max_length (col : Column) (value : List Char) : Column :=
  let newMax :=
    (splitNl value).foldl
      (fun m line => if m < line.length then line.length else m) col.max_length
  { col with max_length := newMax }

/-- The rendered width of a column: `truncate_at` when nonzero, otherwise
`max_length` (the `width` computation at src/lib.rs lines 98-102, repeated at
lines 120-124 and 217-221). -/
def Column.width (col : Column) : Nat :=
  if 0 < col.truncate_at then col.truncate_at else col.max_length

/-- The truncation step of the per-line closure in `Column::format_cell`
(src/lib.rs lines 86-95): keep the first `truncate_at - 3` characters and
append the ellipsis when the line overflows a nonzero truncation width. -/
def truncLine (col : Column) (line : List Char) : List Char :=
  if 0 < col.truncate_at ∧ col.truncate_at < line.length then
    line.take (col.truncate_at - 3) ++ ('.' :: '.' :: '.' :: [])
  else
    line

/-- The padding step of the per-line closure in `Column::format_cell`
(src/lib.rs lines 104-110): pad with spaces up to the column width, after the
text for `Left` justification and before it for `Right`. -/
def padOnly (col : Column) (line : List Char) : List Char :=
  if line.length < col.width then
    match col.justification with
    | .Left => line ++ List.replicate (col.width - line.length) ' '
    | .Right => List.replicate (col.width - line.length) ' ' ++ line
  else
    line

/-- The whole per-line closure in `Column::format_cell`
(src/lib.rs lines 85-113): truncation followed by padding. -/
def formatLine (col : Column) (line : List Char) : List Char :=
  padOnly col (truncLine col line)

/-- `Column::format_cell` (src/lib.rs lines 77-115): split on newline, fail
when the line count exceeds `MAX_CELL_LINES`, otherwise format each line. -/
def Column.format_cell (col : Column) (cell_value : List Char) :
    Except (List Char) (List (List Char)) :=
  let lines := splitNl cell_value
  if MAX_CELL_LINES < lines.length then
    .error (formatCellLinesMsg lines.length)
  else
    .ok (lines.map (formatLine col))

/-- `Column::format_empty` (src/lib.rs lines 119-125): a run of spaces of the
column's rendered width. -/
def Column.format_empty (col : Column) : List Char :=
  List.replicate col.width ' '

/-- The `Table` struct: an ordered list of columns and the stored rows. -/
structure Table where
  columns : List Column
  rows : List (List (List Char))
deriving DecidableEq, Repr

/-- Error text of `Table::new` (src/lib.rs line 142). -/
def tableNewEmptyMsg : List Char :=
  ("Table::new: table must have at least one column").toList

/-- Error text of `Table::add_row` for a column-count mismatch
(src/lib.rs lines 159-163). -/
def addRowCountMsg (got expected : Nat) : List Char :=
  ("Table::add_row: row has " ++ toString got ++ " columns, expected " ++
    toString expected).toList

/-- Error text of `Table::add_row` at the row ceiling
(src/lib.rs lines 167-170). -/
def addRowLimitMsg : List Char :=
  ("Table::add_row: cannot add more rows, maximum (" ++
    toString MAX_TABLE_ROWS ++ ") reached").toList

/-- Error text of `Table::add_row` for a cell with too many lines
(src/lib.rs lines 177-180). -/
def addRowLinesMsg (n : Nat) : List Char :=
  ("Table::add_row: cell contains " ++ toString n ++
    " lines, exceeding maximum allowed (" ++ toString MAX_CELL_LINES ++
    ")").toList

/-- `Table::new` (src/lib.rs lines 140-149). -/
def Table.new (columns : List Column) : Except (List Char) Table :=
  if columns.isEmpty then
    .error tableNewEmptyMsg
  else
    .ok { columns := columns, rows := [] }

/-- `Table::add_row` (src/lib.rs lines 157-191).  The Rust method mutates
`&mut self` and returns a `Result`; here it returns the result paired with
the table after the call.  The source validates (count mismatch, row ceiling,
then each cell's line count in order) before any mutation, so every error
leaves the table exactly as it was. -/
def Table.add_row (t : Table) (row : List (List Char)) :
    Except (List Char) Unit × Table :=
  if row.length ≠ t.columns.length then
    (.error (addRowCountMsg row.length t.columns.length), t)
  else if MAX_TABLE_ROWS ≤ t.rows.length then
    (.error addRowLimitMsg, t)
  else
    match row.find? (fun v => decide (MAX_CELL_LINES < (splitNl v).length)) with
    | some v => (.error (addRowLinesMsg (splitNl v).length), t)
    | none =>
        (.ok (),
          { columns := (t.columns.zip row).map
              (fun p => p.1.update_max_length p.2),
            rows := t.rows ++ [row] })

/-- A header cell in `Display::fmt` (src/lib.rs lines 205-208): the first
formatted line of the column's name, or the error text on failure. -/
def headerCell (col : Column) : List Char :=
  match col.format_cell col.name with
  | .error e => e
  | .ok v => v.headI

/-- The formatted lines of one data cell in `Display::fmt`
(src/lib.rs line 236): the error text as a single line on failure. -/
def cellLines (col : Column) (value : List Char) : List (List Char) :=
  match col.format_cell value with
  | .error e => [e]
  | .ok v => v

/-- The header line of `Display::fmt` (src/lib.rs lines 205-211). -/
def Table.headerLine (t : Table) : List Char :=
  List.intercalate [' '] (t.columns.map headerCell)

/-- The separator line of `Display::fmt` (src/lib.rs lines 214-227): for each
column a run of dashes of its rendered width, joined with single spaces. -/
def Table.separatorLine (t : Table) : List Char :=
  List.intercalate [' ']
    (t.columns.map (fun col =>
      List.replicate
        (if 0 < col.truncate_at then col.truncate_at else col.max_length) '-'))

/-- `formatted_cells` for one row in `Display::fmt`
(src/lib.rs lines 233-237). -/
def Table.rowCells (t : Table) (row : List (List Char)) :
    List (List (List Char)) :=
  (t.columns.zip row).map (fun p => cellLines p.1 p.2)

/-- `max_lines` for one row in `Display::fmt` (src/lib.rs lines 243-247):
the maximum formatted line count across the row's cells, defaulting to 1
when there are no cells (`max().unwrap_or(1)`). -/
def Table.rowMaxLines (t : Table) (row : List (List Char)) : Nat :=
  match (t.rowCells row).map List.length with
  | [] => 1
  | n :: ns => ns.foldl max n

/-- The output lines of one data row in `Display::fmt`
(src/lib.rs lines 251-266): for each line index every column contributes its
formatted line at that index when it exists and `format_empty` otherwise,
joined with single spaces. -/
def Table.rowBlock (t : Table) (row : List (List Char)) : List (List Char) :=
  (List.range (t.rowMaxLines row)).map (fun line_idx =>
    List.intercalate [' ']
      (((t.rowCells row).zip t.columns).map
        (fun p => p.1.getD line_idx p.2.format_empty)))

/-- `Display::fmt` for `Table` (src/lib.rs lines 198-271): empty output for a
column-less table, otherwise the header line, the separator line and each
row's block of lines, every line followed by a newline. -/
def Table.render (t : Table) : List Char :=
  if t.columns.isEmpty then
    []
  else
    t.headerLine ++ ['\n'] ++ t.separatorLine ++ ['\n'] ++
      (t.rows.map
        (fun row =>
          ((t.rowBlock row).map (fun l => l ++ ['\n'])).flatten)).flatten

/-- A small concrete column with no truncation, used by witnesses. -/
def sampleColumnA : Column :=
  { name := ['A'], truncate_at := 0, justification := .Left, max_length := 1 }

/-- A small concrete column with truncation width 10, used by witnesses. -/
def sampleColumnB : Column :=
  { name := ['B'], truncate_at := 10, justification := .Right,
    max_length := 1 }

/-- A small concrete two-column table with one row, used by witnesses. -/
def sampleTable : Table :=
  { columns := [sampleColumnA, sampleColumnB], rows := [[['x'], ['y']]] }

/-! ## Basic lemmas about splitting -/

theorem splitNl_ne_nil : ∀ s : List Char, splitNl s ≠ []
  | [] => by simp [splitNl]
  | c :: cs => by
    simp only [splitNl]
    by_cases h : c = '\n'
    · simp [h]
    · rw [if_neg h]
      cases hs : splitNl cs <;> simp

theorem length_le_of_mem_splitNl {s : List Char} :
    ∀ {l : List Char}, l ∈ splitNl s → l.length ≤ s.length := by
  induction s with
  | nil =>
    intro l hl
    simp [splitNl] at hl
    simp [hl]
  | cons c cs ih =>
    intro l hl
    simp only [splitNl] at hl
    by_cases h : c = '\n'
    · rw [if_pos h] at hl
      rcases List.mem_cons.mp hl with h1 | h2
      · simp [h1]
      · exact le_trans (ih h2) (by simp)
    · rw [if_neg h] at hl
      cases hs : splitNl cs with
      | nil => exact absurd hs (splitNl_ne_nil cs)
      | cons l0 ls =>
        rw [hs] at hl
        rcases List.mem_cons.mp hl with h1 | h2
        · have hm : l0 ∈ splitNl cs := by
            rw [hs]; exact List.mem_cons_self _ _
          have hlen := ih hm
          subst h1
          simp only [List.length_cons]
          omega
        · have hm : l ∈ splitNl cs := by
            rw [hs]; exact List.mem_cons_of_mem _ h2
          exact le_trans (ih hm) (by simp)

theorem splitNl_replicate_newline :
    ∀ n : Nat, splitNl (List.replicate n '\n') = List.replicate (n + 1) []
  | 0 => by simp [splitNl]
  | n + 1 => by
    simp only [List.replicate, splitNl, if_pos rfl]
    rw [splitNl_replicate_newline n]
    rfl

/-! ## Lemmas about `Column::new` -/

theorem Column.new_ok {name : List Char} {tr : Nat} {j : Justification}
    {col : Column} (h : Column.new name tr j = .ok col) :
    name ≠ [] ∧ tr ≤ MAX_TRUNCATE_WIDTH ∧ col.name = name ∧
      col.max_length = name.length ∧ col.justification = j ∧
      col.truncate_at =
        (if 0 < tr then max (max tr 3) name.length else tr) := by
  unfold Column.new at h
  split at h
  · exact absurd h (by simp)
  · split at h
    · exact absurd h (by simp)
    · rename_i h1 h2
      simp only [Except.ok.injEq] at h
      subst h
      refine ⟨by simpa using h1, by omega, rfl, rfl, rfl, rfl⟩

theorem Column.new_truncate_cases {name : List Char} {tr : Nat}
    {j : Justification} {col : Column} (h : Column.new name tr j = .ok col) :
    col.truncate_at = 0 ∨ 3 ≤ col.truncate_at := by
  have hc := (Column.new_ok h).2.2.2.2.2
  by_cases htr : 0 < tr
  · right
    rw [hc, if_pos htr]
    omega
  · left
    rw [hc, if_neg htr]
    omega

/-! ## Lemmas about `Column::update_max_length` -/

theorem updateFold_mono :
    ∀ (ls : List (List Char)) (a : Nat),
      a ≤ ls.foldl (fun m line => if m < line.length then line.length else m) a
  | [], a => le_refl a
  | l :: ls, a => by
    have h1 : a ≤ (if a < l.length then l.length else a) := by
      split <;> omega
    exact le_trans h1 (updateFold_mono ls _)

theorem updateFold_mem :
    ∀ (ls : List (List Char)) (a : Nat) (l : List Char), l ∈ ls →
      l.length ≤
        ls.foldl (fun m line => if m < line.length then line.length else m) a
  | [], _, _, h => by simp at h
  | l0 :: ls, a, l, h => by
    rcases List.mem_cons.mp h with h1 | h2
    · have hh : l.length ≤ (if a < l0.length then l0.length else a) := by
        subst h1; split <;> omega
      exact le_trans hh (updateFold_mono ls _)
    · exact updateFold_mem ls _ l h2

theorem update_max_length_name (col : Column) (v : List Char) :
    (col.update_max_length v).name = col.name := rfl

theorem update_max_length_truncate (col : Column) (v : List Char) :
    (col.update_max_length v).truncate_at = col.truncate_at := rfl

theorem update_max_length_mono (col : Column) (v : List Char) :
    col.max_length ≤ (col.update_max_length v).max_length :=
  updateFold_mono _ _

theorem update_max_length_covers (col : Column) (v : List Char) :
    ∀ l ∈ splitNl v, l.length ≤ (col.update_max_length v).max_length :=
  fun l hl => updateFold_mem _ _ l hl

/-! ## Lemmas about the per-line formatting steps -/

theorem truncLine_of_zero {col : Column} (h : col.truncate_at = 0)
    (line : List Char) : truncLine col line = line := by
  unfold truncLine
  rw [if_neg]
  omega

theorem truncLine_of_le {col : Column} {line : List Char}
    (h : line.length ≤ col.truncate_at) : truncLine col line = line := by
  unfold truncLine
  rw [if_neg]
  omega

theorem truncLine_of_gt {col : Column} {line : List Char}
    (h0 : 0 < col.truncate_at) (h : col.truncate_at < line.length) :
    truncLine col line =
      line.take (col.truncate_at - 3) ++ ('.' :: '.' :: '.' :: []) := by
  unfold truncLine
  rw [if_pos ⟨h0, h⟩]

theorem truncLine_length_of_gt {col : Column} {line : List Char}
    (h3 : 3 ≤ col.truncate_at) (h : col.truncate_at < line.length) :
    (truncLine col line).length = col.truncate_at := by
  rw [truncLine_of_gt (by omega) h]
  simp only [List.length_append, List.length_take, List.length_cons,
    List.length_nil]
  omega

theorem padOnly_length {col : Column} {line : List Char}
    (h : line.length ≤ col.width) : (padOnly col line).length = col.width := by
  unfold padOnly
  by_cases hlt : line.length < col.width
  · rw [if_pos hlt]
    cases col.justification <;> simp <;> omega
  · rw [if_neg hlt]
    omega

theorem padOnly_of_ge {col : Column} {line : List Char}
    (h : col.width ≤ line.length) : padOnly col line = line := by
  unfold padOnly
  rw [if_neg]
  omega

theorem formatLine_eq_padOnly_of_le {col : Column} {line : List Char}
    (h : line.length ≤ col.truncate_at ∨ col.truncate_at = 0) :
    formatLine col line = padOnly col line := by
  unfold formatLine
  rcases h with h | h
  · rw [truncLine_of_le h]
  · rw [truncLine_of_zero h]

/-! ## Lemmas about `Column::format_cell` -/

theorem format_cell_ok {col : Column} {v : List Char}
    (h : (splitNl v).length ≤ MAX_CELL_LINES) :
    col.format_cell v = .ok ((splitNl v).map (formatLine col)) := by
  unfold Column.format_cell
  rw [if_neg (by omega)]

theorem format_cell_error {col : Column} {v : List Char}
    (h : MAX_CELL_LINES < (splitNl v).length) :
    col.format_cell v = .error (formatCellLinesMsg (splitNl v).length) := by
  unfold Column.format_cell
  rw [if_pos h]

theorem Column.width_of_pos {col : Column} (h : 0 < col.truncate_at) :
    col.width = col.truncate_at := if_pos h

theorem Column.width_of_zero {col : Column} (h : col.truncate_at = 0) :
    col.width = col.max_length := by
  unfold Column.width
  rw [if_neg (by omega)]

theorem getD_map_of_lt {α β : Type _} (f : α → β) (l : List α) (i : Nat)
    (d : β) (dd : α) (h : i < l.length) :
    (l.map f).getD i d = f (l.getD i dd) := by
  rw [List.getD_eq_getElem?_getD, List.getElem?_map,
    List.getElem?_eq_getElem h, List.getD_eq_getElem?_getD,
    List.getElem?_eq_getElem h]
  rfl

theorem getD_eq_if_lt (l : List (List Char)) (d : List Char) (i : Nat) :
    l.getD i d = if i < l.length then l.getD i [] else d := by
  by_cases h : i < l.length
  · rw [if_pos h, List.getD_eq_getElem?_getD, List.getD_eq_getElem?_getD,
      List.getElem?_eq_getElem h]
    rfl
  · rw [if_neg h, List.getD_eq_getElem?_getD, List.getElem?_eq_none (by omega)]
    rfl

theorem getD_map_range {β : Type _} (f : Nat → β) (n i : Nat) (d : β)
    (h : i < n) : ((List.range n).map f).getD i d = f i := by
  rw [List.getD_eq_getElem?_getD, List.getElem?_map, List.getElem?_range h]
  rfl

theorem padOnly_eq_of_le {col : Column} {line : List Char}
    (h : line.length ≤ col.width) :
    padOnly col line =
      (match col.justification with
       | .Left => line ++ List.replicate (col.width - line.length) ' '
       | .Right => List.replicate (col.width - line.length) ' ' ++ line) := by
  unfold padOnly
  by_cases hlt : line.length < col.width
  · rw [if_pos hlt]
  · rw [if_neg hlt]
    have hz : col.width - line.length = 0 := by omega
    rw [hz]
    cases col.justification <;> simp

theorem padOnly_shape (col : Column) (line : List Char) :
    ∃ pad, (∀ c ∈ pad, c = ' ') ∧
      (padOnly col line = line ++ pad ∨ padOnly col line = pad ++ line) := by
  unfold padOnly
  by_cases h : line.length < col.width
  · rw [if_pos h]
    cases col.justification
    · exact ⟨_, fun c hc => List.eq_of_mem_replicate hc, Or.inl rfl⟩
    · exact ⟨_, fun c hc => List.eq_of_mem_replicate hc, Or.inr rfl⟩
  · rw [if_neg h]
    exact ⟨[], by simp, Or.inl (by simp)⟩

theorem truncLine_length_le {col : Column} {line : List Char}
    (hcase : col.truncate_at = 0 ∨ 3 ≤ col.truncate_at)
    (h0 : col.truncate_at = 0 → line.length ≤ col.width) :
    (truncLine col line).length ≤ col.width := by
  rcases hcase with h | h
  · rw [truncLine_of_zero h]
    exact h0 h
  · by_cases hgt : col.truncate_at < line.length
    · rw [truncLine_length_of_gt h hgt, Column.width_of_pos (by omega)]
    · rw [truncLine_of_le (by omega), Column.width_of_pos (by omega)]
      omega

theorem formatLine_length {col : Column} {line : List Char}
    (hcase : col.truncate_at = 0 ∨ 3 ≤ col.truncate_at)
    (h0 : col.truncate_at = 0 → line.length ≤ col.width) :
    (formatLine col line).length = col.width :=
  padOnly_length (truncLine_length_le hcase h0)

theorem cellLines_ne_nil (col : Column) (v : List Char) :
    cellLines col v ≠ [] := by
  unfold cellLines
  cases h : col.format_cell v with
  | error e => simp
  | ok out =>
    simp only [Column.format_cell] at h
    split at h
    · cases h
    · cases h
      simp only [ne_eq, List.map_eq_nil_iff]
      exact splitNl_ne_nil v

theorem mem_rowCells_ne_nil (t : Table) (row : List (List Char)) :
    ∀ c ∈ t.rowCells row, c ≠ [] := by
  intro c hc
  unfold Table.rowCells at hc
  obtain ⟨p, _, hp⟩ := List.mem_map.mp hc
  rw [← hp]
  exact cellLines_ne_nil p.1 p.2

theorem foldl_max_eq :
    ∀ (ns : List Nat) (a : Nat), ns.foldl max a = max a (ns.foldr max 0)
  | [], a => by simp
  | n :: ns, a => by
    simp only [List.foldl_cons, List.foldr_cons]
    rw [foldl_max_eq ns (max a n), max_assoc]

theorem flatten_map_flatten (f : List Char → List Char) :
    ∀ L : List (List (List Char)),
      (L.flatten.map f).flatten =
        (L.map (fun b => (b.map f).flatten)).flatten
  | [] => rfl
  | b :: L => by
    simp only [List.flatten_cons, List.map_append, List.flatten_append,
      List.map_cons]
    rw [flatten_map_flatten f L]

theorem forall2_update (cols : List Column) :
    ∀ row : List (List Char), cols.length = row.length →
      List.Forall₂ (fun a b => a.name = b.name ∧ a.max_length ≤ b.max_length)
        cols ((cols.zip row).map (fun p => p.1.update_max_length p.2)) := by
  induction cols with
  | nil =>
    intro row _
    simp
  | cons c cs ih =>
    intro row h
    cases row with
    | nil => simp at h
    | cons v vs =>
      simp only [List.zip_cons_cons, List.map_cons]
      exact List.Forall₂.cons
        ⟨rfl, update_max_length_mono c v⟩ (ih vs (by simpa using h))

/-! ## The claims -/

/-- C1: for every non-empty name of character count n, every requested
truncation width t with 0 < t ≤ 5000 and every justification, `Column::new`
succeeds, sets the effective truncation width to max(t, 3, n), seeds
`max_length` to n, and consequently a header cell (the name formatted through
`format_cell`) is never truncated: every formatted line is the corresponding
line of the name with spaces added only. -/
theorem C1_new_header_never_truncated (name : List Char) (t : Nat)
    (j : Justification) (h1 : name ≠ []) (h2 : 0 < t)
    (h3 : t ≤ MAX_TRUNCATE_WIDTH) :
    ∃ col, Column.new name t j = .ok col ∧
      col.truncate_at = max (max t 3) name.length ∧
      col.max_length = name.length ∧
      ∀ out, col.format_cell col.name = .ok out →
        out = (splitNl col.name).map (padOnly col) := by
  refine ⟨{ name := name, truncate_at := max (max t 3) name.length,
            justification := j, max_length := name.length }, ?_, rfl, rfl, ?_⟩
  · unfold Column.new
    rw [if_neg (by simpa using h1), if_neg (by omega)]
    simp only [if_pos h2]
  · intro out hout
    dsimp only at hout ⊢
    by_cases hn : (splitNl name).length ≤ MAX_CELL_LINES
    · rw [format_cell_ok hn] at hout
      simp only [Except.ok.injEq] at hout
      rw [← hout]
      apply List.map_congr_left
      intro l hl
      refine formatLine_eq_padOnly_of_le (Or.inl ?_)
      exact le_trans (length_le_of_mem_splitNl hl) (le_max_right _ _)
    · rw [format_cell_error (by omega)] at hout
      cases hout

/-- Witness for C1 at name "Na", width 1, Right justification. -/
theorem C1_witness :
    ∃ col, Column.new ['N', 'a'] 1 .Right = .ok col ∧
      col.truncate_at = max (max 1 3) (['N', 'a'] : List Char).length ∧
      col.max_length = (['N', 'a'] : List Char).length ∧
      ∀ out, col.format_cell col.name = .ok out →
        out = (splitNl col.name).map (padOnly col) :=
  C1_new_header_never_truncated ['N', 'a'] 1 .Right (by decide) (by decide)
    (by decide)

/-- C2: for every constructed column whose effective truncation width
w = truncate_at is nonzero and every input line whose character count exceeds
w, the line produced by `format_cell` is exactly the line's first w - 3
characters followed by the three-character ellipsis, of total character count
exactly w; a line at or under w is only padded, never truncated. -/
theorem C2_ellipsis_correct (nm : List Char) (tr : Nat) (j : Justification)
    (col : Column) (value : List Char)
    (hc : Column.new nm tr j = .ok col) (hw : col.truncate_at ≠ 0)
    (hn : (splitNl value).length ≤ MAX_CELL_LINES) :
    ∃ out, col.format_cell value = .ok out ∧
      out.length = (splitNl value).length ∧
      ∀ i, i < (splitNl value).length →
        (col.truncate_at < ((splitNl value).getD i []).length →
          out.getD i [] =
            ((splitNl value).getD i []).take (col.truncate_at - 3) ++
              ('.' :: '.' :: '.' :: []) ∧
          (out.getD i []).length = col.truncate_at) ∧
        (((splitNl value).getD i []).length ≤ col.truncate_at →
          out.getD i [] = padOnly col ((splitNl value).getD i [])) := by
  have h3 : 3 ≤ col.truncate_at := by
    rcases Column.new_truncate_cases hc with h | h
    · exact absurd h hw
    · exact h
  refine ⟨(splitNl value).map (formatLine col), format_cell_ok hn, by simp, ?_⟩
  intro i hi
  have hget : ((splitNl value).map (formatLine col)).getD i [] =
      formatLine col ((splitNl value).getD i []) :=
    getD_map_of_lt (formatLine col) (splitNl value) i [] [] hi
  constructor
  · intro hover
    have htr := truncLine_of_gt (by omega) hover
    have hlen := truncLine_length_of_gt h3 hover
    have hpad : padOnly col (truncLine col ((splitNl value).getD i [])) =
        truncLine col ((splitNl value).getD i []) := by
      apply padOnly_of_ge
      rw [hlen, Column.width_of_pos (by omega)]
    constructor
    · rw [hget]
      unfold formatLine
      rw [hpad, htr]
    · rw [hget]
      unfold formatLine
      rw [hpad, hlen]
  · intro hunder
    rw [hget]
    exact formatLine_eq_padOnly_of_le (Or.inl hunder)

/-- Witness for C2: column "ab" with requested width 10, single line "x". -/
theorem C2_witness :
    ∃ out,
      Column.format_cell
        { name := ['a', 'b'], truncate_at := 10, justification := .Left,
          max_length := 2 } ['x'] = .ok out ∧
      out.length = (splitNl ['x']).length ∧
      ∀ i, i < (splitNl ['x']).length →
        (({ name := ['a', 'b'], truncate_at := 10, justification := .Left,
            max_length := 2 } : Column).truncate_at <
            ((splitNl ['x']).getD i []).length →
          out.getD i [] =
            ((splitNl ['x']).getD i []).take
              (({ name := ['a', 'b'], truncate_at := 10,
                  justification := .Left, max_length := 2 } :
                  Column).truncate_at - 3) ++
              ('.' :: '.' :: '.' :: []) ∧
          (out.getD i []).length =
            ({ name := ['a', 'b'], truncate_at := 10, justification := .Left,
               max_length := 2 } : Column).truncate_at) ∧
        (((splitNl ['x']).getD i []).length ≤
            ({ name := ['a', 'b'], truncate_at := 10, justification := .Left,
               max_length := 2 } : Column).truncate_at →
          out.getD i [] =
            padOnly
              { name := ['a', 'b'], truncate_at := 10, justification := .Left,
                max_length := 2 } ((splitNl ['x']).getD i [])) :=
  C2_ellipsis_correct ['a', 'b'] 10 .Left
    { name := ['a', 'b'], truncate_at := 10, justification := .Left,
      max_length := 2 } ['x'] (by rfl) (by decide) (by decide)

/-- C3: for a constructed column and a cell value whose lines each fit the
rendered width whenever truncate_at is zero (which `add_row` guarantees by
raising `max_length` first), every line returned by `format_cell` has
character count exactly the rendered width, and the padding spaces are
appended after the text for Left justification and prepended for Right. -/
theorem C3_padding_justification (nm : List Char) (tr : Nat)
    (j : Justification) (col : Column) (value : List Char)
    (hc : Column.new nm tr j = .ok col)
    (hn : (splitNl value).length ≤ MAX_CELL_LINES)
    (hfit : ∀ l ∈ splitNl value,
      col.truncate_at = 0 → l.length ≤ col.width) :
    (∀ l ∈ splitNl value,
      l.length ≤ (col.update_max_length value).max_length) ∧
    ∃ out, col.format_cell value = .ok out ∧
      (∀ l ∈ out, l.length = col.width) ∧
      ∀ i, i < (splitNl value).length →
        out.getD i [] =
          (match col.justification with
           | .Left =>
              truncLine col ((splitNl value).getD i []) ++
                List.replicate
                  (col.width -
                    (truncLine col ((splitNl value).getD i [])).length) ' '
           | .Right =>
              List.replicate
                (col.width -
                  (truncLine col ((splitNl value).getD i [])).length) ' ' ++
                truncLine col ((splitNl value).getD i [])) := by
  have hcase := Column.new_truncate_cases hc
  refine ⟨update_max_length_covers col value, (splitNl value).map
    (formatLine col), format_cell_ok hn, ?_, ?_⟩
  · intro l hl
    obtain ⟨l0, hl0, rfl⟩ := List.mem_map.mp hl
    exact formatLine_length hcase (fun h0 => hfit l0 hl0 h0)
  · intro i hi
    have hmem : (splitNl value).getD i [] ∈ splitNl value := by
      rw [List.getD_eq_getElem?_getD, List.getElem?_eq_getElem hi]
      exact List.getElem_mem hi
    rw [getD_map_of_lt (formatLine col) (splitNl value) i [] [] hi]
    unfold formatLine
    exact padOnly_eq_of_le
      (truncLine_length_le hcase (fun h0 => hfit _ hmem h0))

/-- Witness for C3: column "ab" with no truncation, Right justification,
single line "h" of length 1 at width 2. -/
theorem C3_witness :
    (∀ l ∈ splitNl ['h'],
      l.length ≤
        (Column.update_max_length
          { name := ['a', 'b'], truncate_at := 0, justification := .Right,
            max_length := 2 } ['h']).max_length) ∧
    ∃ out,
      Column.format_cell
        { name := ['a', 'b'], truncate_at := 0, justification := .Right,
          max_length := 2 } ['h'] = .ok out ∧
      (∀ l ∈ out,
        l.length =
          ({ name := ['a', 'b'], truncate_at := 0, justification := .Right,
             max_length := 2 } : Column).width) ∧
      ∀ i, i < (splitNl ['h']).length →
        out.getD i [] =
          (match
            ({ name := ['a', 'b'], truncate_at := 0, justification := .Right,
               max_length := 2 } : Column).justification with
           | .Left =>
              truncLine
                { name := ['a', 'b'], truncate_at := 0,
                  justification := .Right, max_length := 2 }
                ((splitNl ['h']).getD i []) ++
                List.replicate
                  (({ name := ['a', 'b'], truncate_at := 0,
                      justification := .Right, max_length := 2 } :
                      Column).width -
                    (truncLine
                      { name := ['a', 'b'], truncate_at := 0,
                        justification := .Right, max_length := 2 }
                      ((splitNl ['h']).getD i [])).length) ' '
           | .Right =>
              List.replicate
                (({ name := ['a', 'b'], truncate_at := 0,
                    justification := .Right, max_length := 2 } :
                    Column).width -
                  (truncLine
                    { name := ['a', 'b'], truncate_at := 0,
                      justification := .Right, max_length := 2 }
                    ((splitNl ['h']).getD i [])).length) ' ' ++
                truncLine
                  { name := ['a', 'b'], truncate_at := 0,
                    justification := .Right, max_length := 2 }
                  ((splitNl ['h']).getD i [])) :=
  C3_padding_justification ['a', 'b'] 0 .Right
    { name := ['a', 'b'], truncate_at := 0, justification := .Right,
      max_length := 2 } ['h'] (by rfl) (by decide) (by decide)

/-- C4: `add_row` fails with the column-count-mismatch error exactly when the
value count differs from the column count, with the row-limit error exactly
when the table already holds 5,000,000 rows, and with the too-many-lines
error exactly when some cell splits into more than 5000 lines; every failure
leaves the table unchanged (atomic ingestion), and on success each column's
`max_length` is updated from its paired value before the row is appended. -/
theorem C4_add_row_validation (t : Table) (row : List (List Char)) :
    (row.length ≠ t.columns.length →
      t.add_row row =
        (.error (addRowCountMsg row.length t.columns.length), t)) ∧
    (row.length = t.columns.length → MAX_TABLE_ROWS ≤ t.rows.length →
      t.add_row row = (.error addRowLimitMsg, t)) ∧
    (row.length = t.columns.length → t.rows.length < MAX_TABLE_ROWS →
      (∃ v ∈ row, MAX_CELL_LINES < (splitNl v).length) →
      ∃ v ∈ row, MAX_CELL_LINES < (splitNl v).length ∧
        t.add_row row = (.error (addRowLinesMsg (splitNl v).length), t)) ∧
    (row.length = t.columns.length → t.rows.length < MAX_TABLE_ROWS →
      (∀ v ∈ row, (splitNl v).length ≤ MAX_CELL_LINES) →
      t.add_row row =
        (.ok (),
          { columns := (t.columns.zip row).map
              (fun p => p.1.update_max_length p.2),
            rows := t.rows ++ [row] })) ∧
    (∀ e, (t.add_row row).1 = .error e → (t.add_row row).2 = t) := by
  refine ⟨?_, ?_, ?_, ?_, ?_⟩
  · intro h
    unfold Table.add_row
    rw [if_pos h]
  · intro h1 h2
    unfold Table.add_row
    rw [if_neg (not_not_intro h1), if_pos h2]
  · intro h1 h2 hex
    unfold Table.add_row
    rw [if_neg (not_not_intro h1), if_neg (by omega)]
    obtain ⟨v0, hv0mem, hv0⟩ := hex
    cases hf :
        row.find? (fun v => decide (MAX_CELL_LINES < (splitNl v).length)) with
    | none =>
      rw [List.find?_eq_none] at hf
      exact absurd (by simpa using hv0) (by simpa using hf v0 hv0mem)
    | some v =>
      have hvp : MAX_CELL_LINES < (splitNl v).length := by
        simpa using List.find?_some hf
      exact ⟨v, List.mem_of_find?_eq_some hf, hvp, rfl⟩
  · intro h1 h2 hall
    unfold Table.add_row
    rw [if_neg (not_not_intro h1), if_neg (by omega)]
    have hf :
        row.find? (fun v => decide (MAX_CELL_LINES < (splitNl v).length)) =
          none := by
      rw [List.find?_eq_none]
      intro x hx
      simpa using not_lt.mpr (hall x hx)
    rw [hf]
  · intro e he
    unfold Table.add_row at he ⊢
    by_cases h1 : row.length ≠ t.columns.length
    · rw [if_pos h1]
    · rw [if_neg h1] at he ⊢
      by_cases h2 : MAX_TABLE_ROWS ≤ t.rows.length
      · rw [if_pos h2]
      · rw [if_neg h2] at he ⊢
        cases hf : row.find?
            (fun v => decide (MAX_CELL_LINES < (splitNl v).length)) with
        | some v => rfl
        | none =>
          rw [hf] at he
          cases he

/-- C5: for every stored row the renderer emits exactly `max_lines` output
lines, where `max_lines` is the largest formatted line count across the row's
cells with minimum 1; at each line index every column contributes its
formatted line at that index when it exists and a run of spaces of its
rendered width (`format_empty`) otherwise, and the per-column cells of each
output line are joined with a single space separator. -/
theorem C5_multiline_row_assembly (t : Table) (row : List (List Char)) :
    t.rowMaxLines row =
      max 1 (((t.rowCells row).map List.length).foldr max 0) ∧
    (t.rowBlock row).length = t.rowMaxLines row ∧
    ∀ i, i < t.rowMaxLines row →
      (t.rowBlock row).getD i [] =
        List.intercalate [' ']
          (((t.rowCells row).zip t.columns).map
            (fun p =>
              if i < p.1.length then p.1.getD i [] else p.2.format_empty)) := by
  refine ⟨?_, ?_, ?_⟩
  · unfold Table.rowMaxLines
    cases hR : t.rowCells row with
    | nil => simp
    | cons c cs =>
      have hc1 : 1 ≤ c.length := by
        have hne : c ≠ [] := by
          apply mem_rowCells_ne_nil t row
          rw [hR]
          exact List.mem_cons_self _ _
        cases c with
        | nil => exact absurd rfl hne
        | cons a as => simp
      simp only [List.map_cons, List.foldr_cons]
      rw [foldl_max_eq]
      omega
  · unfold Table.rowBlock
    simp
  · intro i hi
    unfold Table.rowBlock
    rw [getD_map_range _ _ i [] hi]
    congr 1
    apply List.map_congr_left
    intro p _
    rw [getD_eq_if_lt]

/-- C6: the rendered text of a table with at least one column is, in order,
the header line, the separator line (for each column a run of dashes of its
rendered width, joined with single spaces) and the data rows in insertion
order, with every output line terminated by a newline. -/
theorem C6_render_layout (t : Table) (h : t.columns ≠ []) :
    t.render =
      ((t.headerLine :: t.separatorLine ::
        (t.rows.map t.rowBlock).flatten).map (fun l => l ++ ['\n'])).flatten ∧
    t.separatorLine =
      List.intercalate [' ']
        (t.columns.map (fun col => List.replicate col.width '-')) := by
  constructor
  · unfold Table.render
    rw [if_neg (by simpa using h)]
    simp only [List.map_cons, List.flatten_cons]
    rw [flatten_map_flatten (fun l => l ++ ['\n']) (t.rows.map t.rowBlock),
      List.map_map]
    simp only [List.append_assoc, Function.comp_def]
  · rfl

/-- Witness for C6 at the sample two-column table. -/
theorem C6_witness :
    sampleTable.render =
      ((sampleTable.headerLine :: sampleTable.separatorLine ::
        (sampleTable.rows.map sampleTable.rowBlock).flatten).map
          (fun l => l ++ ['\n'])).flatten ∧
    sampleTable.separatorLine =
      List.intercalate [' ']
        (sampleTable.columns.map
          (fun col => List.replicate col.width '-')) :=
  C6_render_layout sampleTable (by decide)

/-- C7: when `truncate_at` is zero no operation shortens a cell line: every
line produced by `format_cell` contains the full input line with only spaces
added, and the column's rendered width equals `max_length`. -/
theorem C7_no_truncation_when_zero (col : Column) (value : List Char)
    (h0 : col.truncate_at = 0)
    (hn : (splitNl value).length ≤ MAX_CELL_LINES) :
    col.width = col.max_length ∧
    ∃ out, col.format_cell value = .ok out ∧
      out.length = (splitNl value).length ∧
      ∀ i, i < (splitNl value).length →
        ∃ pad, (∀ c ∈ pad, c = ' ') ∧
          (out.getD i [] = (splitNl value).getD i [] ++ pad ∨
           out.getD i [] = pad ++ (splitNl value).getD i []) := by
  refine ⟨Column.width_of_zero h0, (splitNl value).map (formatLine col),
    format_cell_ok hn, by simp, ?_⟩
  intro i hi
  rw [getD_map_of_lt (formatLine col) (splitNl value) i [] [] hi,
    formatLine_eq_padOnly_of_le (Or.inr h0)]
  exact padOnly_shape col ((splitNl value).getD i [])

/-- Witness for C7: the sample untruncated column on the line "hi". -/
theorem C7_witness :
    sampleColumnA.width = sampleColumnA.max_length ∧
    ∃ out, sampleColumnA.format_cell ['h', 'i'] = .ok out ∧
      out.length = (splitNl ['h', 'i']).length ∧
      ∀ i, i < (splitNl ['h', 'i']).length →
        ∃ pad, (∀ c ∈ pad, c = ' ') ∧
          (out.getD i [] = (splitNl ['h', 'i']).getD i [] ++ pad ∨
           out.getD i [] = pad ++ (splitNl ['h', 'i']).getD i []) :=
  C7_no_truncation_when_zero sampleColumnA ['h', 'i'] (by rfl) (by decide)

/-- C8: `max_length` is seeded to the name's character count at construction
and `max_length >= character_count(name)` is preserved; `update_max_length`
only grows it and `set_justification` leaves it (and the name) unchanged;
across an `add_row` call every column keeps its name and its `max_length`
never decreases. -/
theorem C8_max_length_monotone (nm : List Char) (tr : Nat)
    (j j2 : Justification) (col : Column) (v : List Char) (t : Table)
    (row : List (List Char)) :
    (Column.new nm tr j = .ok col → col.max_length = nm.length) ∧
    col.max_length ≤ (col.update_max_length v).max_length ∧
    (col.update_max_length v).name = col.name ∧
    (col.name.length ≤ col.max_length →
      col.name.length ≤ (col.update_max_length v).max_length) ∧
    (col.set_justification j2).max_length = col.max_length ∧
    (col.set_justification j2).name = col.name ∧
    List.Forall₂ (fun a b => a.name = b.name ∧ a.max_length ≤ b.max_length)
      t.columns (t.add_row row).2.columns := by
  refine ⟨fun hc => (Column.new_ok hc).2.2.2.1, update_max_length_mono col v,
    rfl, ?_, rfl, rfl, ?_⟩
  · intro h
    exact le_trans h (update_max_length_mono col v)
  · have hrefl : List.Forall₂
        (fun a b : Column => a.name = b.name ∧ a.max_length ≤ b.max_length)
        t.columns t.columns :=
      List.forall₂_same.mpr (fun x _ => ⟨rfl, le_refl _⟩)
    unfold Table.add_row
    by_cases h1 : row.length ≠ t.columns.length
    · rw [if_pos h1]
      exact hrefl
    · rw [if_neg h1]
      by_cases h2 : MAX_TABLE_ROWS ≤ t.rows.length
      · rw [if_pos h2]
        exact hrefl
      · rw [if_neg h2]
        cases hf : row.find?
            (fun v2 => decide (MAX_CELL_LINES < (splitNl v2).length)) with
        | some v2 => exact hrefl
        | none =>
          exact forall2_update t.columns row (by omega)

/-- C9: rendering never aborts: when `format_cell` fails for a cell (its
content splits into more than 5000 lines), the error's message text is
substituted in place of that cell's formatted content — as the header cell,
or as the data cell's single line — and a table with columns always renders
the full header/separator/rows text. -/
theorem C9_render_degrades_in_place (col : Column) (v : List Char)
    (t : Table) :
    (MAX_CELL_LINES < (splitNl col.name).length →
      col.format_cell col.name =
        .error (formatCellLinesMsg (splitNl col.name).length) ∧
      headerCell col = formatCellLinesMsg (splitNl col.name).length) ∧
    (MAX_CELL_LINES < (splitNl v).length →
      cellLines col v = [formatCellLinesMsg (splitNl v).length]) ∧
    (t.columns ≠ [] →
      t.render = t.headerLine ++ ['\n'] ++ t.separatorLine ++ ['\n'] ++
        List.flatten (t.rows.map
          (fun r =>
            List.flatten ((t.rowBlock r).map (fun l => l ++ ['\n']))))) := by
  refine ⟨fun h => ⟨format_cell_error h, ?_⟩, fun h => ?_, fun h => ?_⟩
  · unfold headerCell
    rw [format_cell_error h]
  · unfold cellLines
    rw [format_cell_error h]
  · unfold Table.render
    rw [if_neg (by simpa using h)]

/-- C10: for every input whose newline-split line count is at most 5000,
`format_cell` returns Ok with a non-empty vector, so the header-rendering
access of element 0 of the formatted name is always in bounds. -/
theorem C10_format_cell_nonempty (col : Column) (v : List Char)
    (hv : (splitNl v).length ≤ MAX_CELL_LINES)
    (hname : (splitNl col.name).length ≤ MAX_CELL_LINES) :
    (∃ out, col.format_cell v = .ok out ∧ 0 < out.length) ∧
    ∃ hout, col.format_cell col.name = .ok hout ∧ 0 < hout.length ∧
      headerCell col = hout.headI := by
  constructor
  · refine ⟨(splitNl v).map (formatLine col), format_cell_ok hv, ?_⟩
    simpa using List.length_pos.mpr (splitNl_ne_nil v)
  · refine ⟨(splitNl col.name).map (formatLine col), format_cell_ok hname,
      ?_, ?_⟩
    · simpa using List.length_pos.mpr (splitNl_ne_nil col.name)
    · unfold headerCell
      rw [format_cell_ok hname]

/-- Witness for C10: the sample truncated column on the line "y". -/
theorem C10_witness :
    (∃ out, sampleColumnB.format_cell ['y'] = .ok out ∧ 0 < out.length) ∧
    ∃ hout, sampleColumnB.format_cell sampleColumnB.name = .ok hout ∧
      0 < hout.length ∧ headerCell sampleColumnB = hout.headI :=
  C10_format_cell_nonempty sampleColumnB ['y'] (by decide) (by decide)
